import Mathlib

/-!
Verification development for the KatelyaTV multi-source aggregation engine
(`src/app/api/source/category/route.ts` and `src/app/api/source/hot/route.ts`).

The TypeScript routes are shallowly embedded as executable Lean definitions:
strings are `String`/`List Char`, the `vod_play_url` regex scan, the JS
`Map`-based deduplication, `Array.prototype.slice` with integer arguments,
and the comparator-driven sort are all modelled operationally.  Network and
randomness are parameters: each source's fetch outcome is a `NetOutcome`
value, the random id token and the HTML-tag stripper (`cleanHtmlTags`, an
external collaborator) are explicit arguments, and the random sort
comparator is an oracle of comparison outcomes.
-/

set_option maxRecDepth 4000

/-- JS whitespace class `\s` restricted to the ASCII control/space characters
(the characters relevant to `trim`, `replace(/\s+/g, ' ')` and the
`[^"'\s]` character class of the m3u8 regex). -/
def isWsChar (c : Char) : Bool :=
  c = ' ' || c = '\t' || c = '\n' || c = '\r' || c = Char.ofNat 11 || c = Char.ofNat 12

/-- Model of JS `String.prototype.toLowerCase` (ASCII case mapping). -/
def jsToLower (s : String) : String :=
  String.mk (s.data.map Char.toLower)

/-- Model of JS `String.prototype.includes`: `containsSub needle hay` is true
iff `needle` occurs as a contiguous substring of `hay`. -/
def containsSub (needle : List Char) : List Char → Bool
  | [] => needle.isEmpty
  | c :: rest => needle.isPrefixOf (c :: rest) || containsSub needle rest

/-- Iteration-order deduplication with an explicit set of already-seen
elements; models the insertion-order semantics of a JS `Set`. -/
def dedupSeen {α : Type} [DecidableEq α] (seen : List α) : List α → List α
  | [] => []
  | x :: xs => if x ∈ seen then dedupSeen seen xs else x :: dedupSeen (x :: seen) xs

/-- Model of `Array.from(new Set(xs))`: keep the first occurrence of each
element, in first-seen order. -/
def insertionDedup {α : Type} [DecidableEq α] (l : List α) : List α :=
  dedupSeen [] l

/-- Model of JS `String.prototype.trim` on the character list. -/
def trimChars (l : List Char) : List Char :=
  ((l.dropWhile isWsChar).reverse.dropWhile isWsChar).reverse

/-- Scanner for JS `replace(/\s+/g, ' ')`: the flag records whether the scan
is inside a whitespace run whose single replacement space was already
emitted. -/
def collapseWsGo : Bool → List Char → List Char
  | _, [] => []
  | inRun, c :: rest =>
    if isWsChar c then
      if inRun then collapseWsGo true rest else ' ' :: collapseWsGo true rest
    else c :: collapseWsGo false rest

/-- Model of JS `replace(/\s+/g, ' ')`: every maximal whitespace run becomes
a single space. -/
def collapseWs (l : List Char) : List Char :=
  collapseWsGo false l

/-- Attempt to read four decimal digits at the head of the list (the anchored
step of the `/\d{4}/` search). -/
def take4Digits (l : List Char) : Option String :=
  match l with
  | a :: b :: c :: d :: _ =>
    if a.isDigit && b.isDigit && c.isDigit && d.isDigit then
      some (String.mk [a, b, c, d])
    else none
  | _ => none

/-- Model of JS `str.match(/\d{4}/)?.[0]`: the first run of four consecutive
decimal digits, if any. -/
def find4Digits : List Char → Option String
  | [] => none
  | a :: rest =>
    match take4Digits (a :: rest) with
    | some r => some r
    | none => find4Digits rest

/-! ## Episode extractor

Model of the `vod_play_url` processing shared by both routes:

```ts
const m3u8Regex = /\$(https?:\/\/[^"'\s]+?\.m3u8)/g;
const vod_play_url_array = item.vod_play_url.split('$$$');
vod_play_url_array.forEach((url) => {
  const matches = url.match(m3u8Regex) || [];
  if (matches.length > episodes.length) { episodes = matches; }
});
episodes = Array.from(new Set(episodes)).map((link) => {
  link = link.substring(1);
  const parenIndex = link.indexOf('(');
  return parenIndex > 0 ? link.substring(0, parenIndex) : link;
});
```
-/

/-- Consume the literal `lit` from the front of the input, returning the
rest on success. -/
def dropLit : List Char → List Char → Option (List Char)
  | [], cs => some cs
  | _ :: _, [] => none
  | l :: ls, c :: cs => if c = l then dropLit ls cs else none

def m3u8Suffix : List Char := ['.', 'm', '3', 'u', '8']

def httpLit : List Char := ['h', 't', 't', 'p']

def schemeSep : List Char := [':', '/', '/']

/-- Character class `[^"'\s]` of the m3u8 regex. -/
def isBodyChar (c : Char) : Bool :=
  !(c = '"' || c = Char.ofNat 39 || isWsChar c)

/-- Lazy scan for `[^"'\s]+?\.m3u8`: consume at least one body character and
stop at the first position where the literal `.m3u8` follows, returning the
consumed text (body plus the `.m3u8` suffix) and the rest of the input. -/
def scanBody : List Char → Option (List Char × List Char)
  | [] => none
  | c :: rest =>
    if isBodyChar c then
      match dropLit m3u8Suffix rest with
      | some rest2 => some (c :: m3u8Suffix, rest2)
      | none =>
        match scanBody rest with
        | some (body, rest2) => some (c :: body, rest2)
        | none => none
    else none

/-- Try to match `\$(https?:\/\/[^"'\s]+?\.m3u8)` anchored at the head of the
input; on success return the whole match (including the leading `$`) and the
remaining input. -/
def tryMatch (cs : List Char) : Option (List Char × List Char) :=
  match cs with
  | '$' :: rest =>
    match dropLit httpLit rest with
    | none => none
    | some r1 =>
      let sr : List Char × List Char :=
        match r1 with
        | 's' :: r => (['s'], r)
        | _ => ([], r1)
      match dropLit schemeSep sr.2 with
      | none => none
      | some r3 =>
        match scanBody r3 with
        | none => none
        | some (body, rest2) =>
          some ('$' :: (httpLit ++ sr.1 ++ schemeSep ++ body), rest2)
  | _ => none

/-- Fuelled global scan of `str.match(regex)` with the `g` flag: find the
leftmost match, emit it, continue after its end.  One unit of fuel is spent
per step and every step consumes at least one input character, so fuel equal
to the input length is always sufficient. -/
def findMatchesFuel : Nat → List Char → List (List Char)
  | _, [] => []
  | 0, _ :: _ => []
  | fuel + 1, c :: rest =>
    match tryMatch (c :: rest) with
    | some (m, rest2) => m :: findMatchesFuel fuel rest2
    | none => findMatchesFuel fuel rest

/-- Model of `url.match(m3u8Regex) || []`: all (non-overlapping, leftmost)
matches of the m3u8 regex, in order. -/
def findMatches (l : List Char) : List (List Char) :=
  findMatchesFuel l.length l

/-- Prepend a character to the first group of an already-split tail. -/
def splitSepCons (c : Char) (groups : List (List Char)) : List (List Char) :=
  match groups with
  | g :: gs => (c :: g) :: gs
  | [] => [[c]]

/-- Model of JS `split('$$$')`: cut at each leftmost occurrence of `$$$`. -/
def splitSep : List Char → List (List Char)
  | [] => [[]]
  | '$' :: '$' :: '$' :: rest => [] :: splitSep rest
  | c :: rest => splitSepCons c (splitSep rest)

/-- The group-selection fold of the extractor: keep the match list of the
group with strictly the most matches (first such group on ties). -/
def selectBest (groups : List (List Char)) : List (List Char) :=
  groups.foldl (fun best g =>
    let ms := findMatches g
    if best.length < ms.length then ms else best) []

/-- Per-link post-processing: `substring(1)` to drop the leading `$`, then
truncate at a `(` found at an index greater than zero. -/
def stripAndTrunc (link : List Char) : List Char :=
  let l := link.drop 1
  match l.findIdx? (fun c => c = '(') with
  | some i => if 0 < i then l.take i else l
  | none => l

/-- The full episode extractor on a character list. -/
def extractEpisodes (l : List Char) : List (List Char) :=
  (insertionDedup (selectBest (splitSep l))).map stripAndTrunc

/-- The full episode extractor on strings, as applied to `item.vod_play_url`. -/
def extractS (s : String) : List String :=
  (extractEpisodes s.data).map String.mk

/-- Modelled from the claim text of the idempotence property: prefix each
output URL with `$` and join the results with `$$$`. -/
def rejoinEpisodes (us : List String) : String :=
  String.intercalate "$$$" (us.map (fun u => "$" ++ u))

/-! ## Data model and record normalization

Model of the `data.list.map((item) => {...})` projection shared by
`fetchCategoryVideosFromApi` and `fetchHotVideosFromApi`.  Raw backend
fields are `Option String` (absent versus present); the JS falsiness of the
empty string is modelled explicitly at each use site.  The random id token
and the external `cleanHtmlTags` collaborator are passed as parameters. -/

structure RawItem where
  vod_id : Option String
  vod_name : Option String
  vod_pic : Option String
  vod_play_url : Option String
  vod_class : Option String
  vod_year : Option String
  vod_content : Option String
  type_name : Option String
  deriving DecidableEq, Repr

structure Video where
  id : String
  title : String
  poster : String
  episodes : List String
  source : String
  source_name : String
  cls : String
  year : String
  desc : String
  type_name : String
  deriving DecidableEq, Repr

/-- Model of `item.vod_id?.toString() || fallback` (an empty stringified id
is falsy and also falls back to the generated placeholder). -/
def normId (tok sourceKey : String) (v : Option String) : String :=
  match v with
  | some s => if s = "" then sourceKey ++ "-" ++ tok else s
  | none => sourceKey ++ "-" ++ tok

/-- Model of `item.vod_name?.trim().replace(/\s+/g, ' ') || '未知标题'`. -/
def normTitle (v : Option String) : String :=
  match v with
  | some n =>
    let t := collapseWs (trimChars n.data)
    if t = [] then "未知标题" else String.mk t
  | none => "未知标题"

/-- Model of
`item.vod_year ? item.vod_year.match(/\d{4}/)?.[0] || '' : 'unknown'`. -/
def normYear (v : Option String) : String :=
  match v with
  | some y =>
    if y = "" then "unknown"
    else
      match find4Digits y.data with
      | some r => r
      | none => ""
  | none => "unknown"

/-- Model of the `if (item.vod_play_url) {...}` episode computation. -/
def normEpisodes (v : Option String) : List String :=
  match v with
  | some u => if u = "" then [] else extractS u
  | none => []

/-- The per-item normalization object literal of both routes.  `clean` is
the external `cleanHtmlTags` collaborator and `tok` the random 9-character
token used for generated ids. -/
def normalizeItem (clean : String → String) (tok sourceKey sourceName : String)
    (item : RawItem) : Video :=
  { id := normId tok sourceKey item.vod_id
    title := normTitle item.vod_name
    poster := item.vod_pic.getD ""
    episodes := normEpisodes item.vod_play_url
    source := sourceKey
    source_name := sourceName
    cls := item.vod_class.getD ""
    year := normYear item.vod_year
    desc := clean (item.vod_content.getD "")
    type_name := item.type_name.getD "" }

/-- The validity filter `.filter((video) => video.title && video.poster)`:
both strings must be truthy, i.e. non-empty. -/
def keepVideo (v : Video) : Bool :=
  !(v.title = "") && !(v.poster = "")

/-- `data.list.map(item => ...).filter(video => video.title && video.poster)`. -/
def processItems (clean : String → String) (tok sourceKey sourceName : String)
    (items : List RawItem) : List Video :=
  (items.map (normalizeItem clean tok sourceKey sourceName)).filter keepVideo

/-- The per-record category post-filter of the category route: the lowered
category label must occur in the lowered `class`, `type_name` or `title`. -/
def categoryPred (category : String) (v : Video) : Bool :=
  containsSub (jsToLower category).data (jsToLower v.cls).data ||
  containsSub (jsToLower category).data (jsToLower v.type_name).data ||
  containsSub (jsToLower category).data (jsToLower v.title).data

/-- `if (category !== '全部') { return videos.filter(...) } return videos`. -/
def maybeCategoryFilter (category : String) (videos : List Video) : List Video :=
  if category = "全部" then videos else videos.filter (categoryPred category)

/-! ## TimedFetcher and the per-source executor

`fetchWithTimeout` wraps `fetch` in a try/catch that clears the timeout and
**re-throws** the error; a non-2xx response is returned as an ordinary
`Response` value.  The outcome of the underlying `fetch` (plus the JSON
parse of the body) is modelled by `NetOutcome`: either a response with an
HTTP status and an optional parsed record list (`none` models
`!data || !data.list || !Array.isArray(data.list)`), or a thrown error
(network failure or the 8-second abort). -/

inductive NetOutcome where
  | resp (status : Nat) (body : Option (List RawItem))
  | netErr (msg : String)
  deriving DecidableEq, Repr

/-- Model of `fetchWithTimeout`: a resolved `fetch` is returned unchanged
(whatever its status); a thrown error is re-thrown to the caller. -/
def fetchWithTimeout : NetOutcome → Except String (Nat × Option (List RawItem))
  | .resp status body => .ok (status, body)
  | .netErr msg => .error msg

/-- `Response.ok`: status in the inclusive range 200–299. -/
def responseOk (status : Nat) : Bool :=
  200 ≤ status && status ≤ 299

/-- The body of `fetchCategoryVideosFromApi` up to (but not including) its
outer `try/catch`: an `Except.error` is an exception propagating out of the
`await`.  With `category = "全部"` (and the keyword randomness absorbed into
the outcome) this is also the body of `fetchHotVideosFromApi`. -/
def fetchVideosBody (clean : String → String) (tok sourceKey sourceName category : String)
    (o : NetOutcome) : Except String (List Video) :=
  match fetchWithTimeout o with
  | .error msg => .error msg
  | .ok (status, body) =>
    if !responseOk status then .ok []
    else
      match body with
      | none => .ok []
      | some items =>
        if items.length = 0 then .ok []
        else .ok (maybeCategoryFilter category
            (processItems clean tok sourceKey sourceName items))

/-- `fetchCategoryVideosFromApi` with its outer `try/catch`: any exception
becomes an empty list. -/
def fetchCategoryVideosFromApi (clean : String → String)
    (tok sourceKey sourceName category : String) (o : NetOutcome) : List Video :=
  match fetchVideosBody clean tok sourceKey sourceName category o with
  | .ok videos => videos
  | .error _ => []

/-- A source outcome that actually delivers a parsed record list with a 2xx
status; all other outcomes contribute an empty list. -/
def isSurvivor : NetOutcome → Bool
  | .resp status body => responseOk status && body.isSome
  | .netErr _ => false

/-! ## Map-based deduplication

Model of `Array.from(new Map(list.map(v => [key(v), v])).values())`.  A JS
`Map` keeps the original insertion position of a key and **overwrites** the
stored value when the same key is set again. -/

/-- `Map.prototype.set`: update the value in place if the key exists,
otherwise append a new entry. -/
def mapInsert {V : Type} : List (String × V) → String → V → List (String × V)
  | [], k, v => [(k, v)]
  | e :: rest, k, v =>
    if e.1 = k then (k, v) :: rest else e :: mapInsert rest k v

/-- `new Map(pairs)`: insert the pairs left to right into an empty map. -/
def mapFromPairs {V : Type} (ps : List (String × V)) : List (String × V) :=
  ps.foldl (fun m p => mapInsert m p.1 p.2) []

/-- `Array.from(new Map(l.map(v => [key v, v])).values())`. -/
def dedupBy {V : Type} (key : V → String) (l : List V) : List V :=
  (mapFromPairs (l.map (fun v => (key v, v)))).map Prod.snd

/-- Dedup key of the category route:
`${video.title.toLowerCase()}-${video.year}-${video.source}`. -/
def fullKey (v : Video) : String :=
  jsToLower v.title ++ "-" ++ v.year ++ "-" ++ v.source

/-- Dedup key of the hot route:
`${video.title.toLowerCase()}-${video.year}-${video.class}`. -/
def trendKey (v : Video) : String :=
  jsToLower v.title ++ "-" ++ v.year ++ "-" ++ v.cls

/-! ## Randomized ordering

`uniqueVideos.sort(() => 0.5 - Math.random())` runs the engine's
comparison sort with a comparator that ignores its arguments and returns a
random sign.  The sort is modelled as a comparison-driven insertion sort
whose comparisons are answered by an oracle `orc : Nat → Bool` (the n-th
comparison outcome); `true` means the inserted element stays in front. -/

def insertOracle {α : Type} (orc : Nat → Bool) : Nat → α → List α → List α × Nat
  | c, x, [] => ([x], c)
  | c, x, y :: ys =>
    if orc c then (x :: y :: ys, c + 1)
    else
      let r := insertOracle orc (c + 1) x ys
      (y :: r.1, r.2)

def sortOracleGo {α : Type} (orc : Nat → Bool) : Nat → List α → List α × Nat
  | c, [] => ([], c)
  | c, x :: xs =>
    let r := sortOracleGo orc c xs
    insertOracle orc r.2 x r.1

/-- The randomized-ordering step, parameterized by the comparison oracle. -/
def sortOracle {α : Type} (orc : Nat → Bool) (l : List α) : List α :=
  (sortOracleGo orc 0 l).1

/-! ## Pagination -/

/-- Index normalization of `Array.prototype.slice`: negative indices count
from the end (clamped at 0), non-negative indices are clamped at the
length. -/
def jsNormIdx (n : Nat) (i : Int) : Nat :=
  if i < 0 then (max ((n : Int) + i) 0).toNat else min i.toNat n

/-- Model of `arr.slice(s, e)` with integer arguments. -/
def jsSlice {α : Type} (l : List α) (s e : Int) : List α :=
  (l.take (jsNormIdx l.length e)).drop (jsNormIdx l.length s)

/-- `shuffled.slice(pageStart, pageStart + pageLimit)`. -/
def paginate {α : Type} (l : List α) (start limit : Int) : List α :=
  jsSlice l start (start + limit)

/-- Modelled from the spec: the slice `[start, start+limit)` clipped to the
sequence's bounds (the intersection of the requested index window with the
valid indices of the sequence). -/
def clipSlice {α : Type} (l : List α) (start limit : Int) : List α :=
  (l.drop start.toNat).take ((start + limit).toNat - start.toNat)

/-! ## The two GET endpoints -/

structure ApiSite where
  api : String
  key : String
  name : String
  deriving DecidableEq, Repr

structure RespEnvelope where
  code : Nat
  message : String
  list : List Video
  deriving DecidableEq, Repr

/-- Model of `GET /api/source/category`: the configured sites and each
site's network outcome, the category, the parsed `start`/`limit`, and the
sort-comparator oracle are explicit inputs.  The surrounding `try/catch`
(`code=500`) is unreachable in this model because every modelled step is
total; `getAvailableApiSites` is modelled as the already-supplied list. -/
def categoryGET (clean : String → String) (tok : String)
    (sites : List ApiSite) (outcomes : List NetOutcome) (category : String)
    (pageStart pageLimit : Int) (orc : Nat → Bool) : RespEnvelope :=
  if sites.length = 0 then
    { code := 200, message := "暂无可用视频源", list := [] }
  else
    let allVideos := ((sites.zip outcomes).map (fun p =>
      fetchCategoryVideosFromApi clean tok p.1.key p.1.name category p.2)).flatten
    let uniqueVideos := dedupBy fullKey allVideos
    let shuffled := sortOracle orc uniqueVideos
    { code := 200, message := "获取成功",
      list := paginate shuffled pageStart pageLimit }

/-- Model of `GET /api/source/hot`: like the category route but restricted
to the first three sites, with no category filter (the hot route's body is
`fetchVideosBody` with category `"全部"`) and the looser `trendKey`. -/
def hotGET (clean : String → String) (tok : String)
    (sites : List ApiSite) (outcomes : List NetOutcome)
    (pageStart pageLimit : Int) (orc : Nat → Bool) : RespEnvelope :=
  if sites.length = 0 then
    { code := 200, message := "暂无可用视频源", list := [] }
  else
    let allVideos := (((sites.take 3).zip outcomes).map (fun p =>
      fetchCategoryVideosFromApi clean tok p.1.key p.1.name "全部" p.2)).flatten
    let uniqueVideos := dedupBy trendKey allVideos
    let shuffled := sortOracle orc uniqueVideos
    { code := 200, message := "获取成功",
      list := paginate shuffled pageStart pageLimit }

/-! ## Concrete inputs used by counterexamples and witnesses -/

/-- A raw record whose `vod_name` is absent but whose poster is set. -/
def rawNoTitle : RawItem :=
  { vod_id := none, vod_name := none, vod_pic := some "https://img/p.jpg",
    vod_play_url := none, vod_class := none, vod_year := none,
    vod_content := none, type_name := none }

/-- A raw record whose `vod_year` is present and non-empty but contains no
run of four digits. -/
def rawYearNoRun : RawItem :=
  { vod_id := some "7", vod_name := some "A", vod_pic := some "p",
    vod_play_url := none, vod_class := none, vod_year := some "n/a",
    vod_content := none, type_name := none }

/-- Two records sharing the full-mode dedup key but differing in `poster`. -/
def vDup1 : Video :=
  { id := "1", title := "A", poster := "p1", episodes := [], source := "s",
    source_name := "S", cls := "c1", year := "2020", desc := "", type_name := "" }

def vDup2 : Video :=
  { id := "2", title := "A", poster := "p2", episodes := [], source := "s",
    source_name := "S", cls := "c2", year := "2020", desc := "", type_name := "" }

/-! ## Claim C5 -/

/-- C5: the episode extractor splits on `$$$`, keeps the group with the
strictly largest number of `$https…​.m3u8` matches (first group on ties,
smaller groups discarded), deduplicates in first-seen order, strips the
leading `$` and truncates at a `(` at positive index.  On the spec's
scenario input the output is exactly
`["https://a.com/1.m3u8", "https://a.com/2.m3u8"]`; the further conjuncts
exercise the tie rule (first group kept) and the first-seen deduplication. -/
theorem C5_extractor_scenario :
    extractS "$https://a.com/1.m3u8(CDN1)$$$$https://a.com/1.m3u8(CDN1)$https://a.com/2.m3u8(CDN2)" =
      ["https://a.com/1.m3u8", "https://a.com/2.m3u8"] ∧
    extractS "$https://x.m3u8$$$$https://y.m3u8" = ["https://x.m3u8"] ∧
    extractS "$https://x.m3u8$https://x.m3u8" = ["https://x.m3u8"] := by
  refine ⟨by decide, by decide, by decide⟩

/-! ## Claim C1 -/

/-- C1 counterexample: a raw record with **no** raw title field but a
non-empty poster is normalized to the sentinel title `"未知标题"`, passes
the `video.title && video.poster` filter, and appears in the aggregated
output of the category route — refuting the claim that records missing
`title` are never emitted. -/
theorem C1_counterexample :
    rawNoTitle.vod_name = none ∧
    (categoryGET (fun s => s) "tok0" [{ api := "https://api", key := "k1", name := "n1" }]
        [NetOutcome.resp 200 (some [rawNoTitle])] "全部" 0 25 (fun _ => true)).list =
      [{ id := "k1-tok0", title := "未知标题", poster := "https://img/p.jpg",
         episodes := [], source := "k1", source_name := "n1", cls := "",
         year := "unknown", desc := "", type_name := "" }] := by
  exact ⟨rfl, rfl⟩

/-! ## Claim C7 -/

/-- C7 counterexample: a `vod_year` that is present and non-empty but has no
4-digit run normalizes to the empty string, not to `"unknown"`. -/
theorem C7_counterexample :
    rawYearNoRun.vod_year = some "n/a" ∧
    (normalizeItem (fun s => s) "t" "k" "n" rawYearNoRun).year = "" ∧
    ("" : String) ≠ "unknown" := by
  exact ⟨rfl, rfl, by decide⟩

/-! ## Claim C2 -/

/-- C2 counterexample: two records from the same source with the same
lowered title and year collapse to the **last**-seen instance (`vDup2`),
not the first-seen one (`vDup1`): `new Map` overwrites the stored value on
a repeated key. -/
theorem C2_counterexample :
    dedupBy fullKey [vDup1, vDup2] = [vDup2] ∧ vDup1 ≠ vDup2 := by
  exact ⟨rfl, by decide⟩

/-! ## Claim C4 -/

/-- C4 counterexample: with the integer start `-1`, JS `slice` interprets
the index from the end of the array, returning `[]` on `[10, 20]` with
limit `2`, while the claimed clip-to-bounds slice `[-1, 1) ∩ [0, 2)`
returns `[10]`. -/
theorem C4_counterexample :
    paginate ([10, 20] : List Nat) (-1) 2 = [] ∧
    clipSlice ([10, 20] : List Nat) (-1) 2 = [10] := by
  exact ⟨rfl, rfl⟩

/-! ## Claim C6 -/

/-- C6 counterexample: re-running the extractor on its own output joined
with `$$$` (each URL re-prefixed with `$`) does **not** reproduce the
output.  With two extracted URLs each re-joined group holds exactly one
match, so the tie rule keeps only the first group; and a URL that was
truncated at `(` no longer parses as an m3u8 match at all, so re-running
yields the empty list. -/
theorem C6_counterexample :
    extractS "$https://a.com/1.m3u8$https://b.com/2.m3u8" =
      ["https://a.com/1.m3u8", "https://b.com/2.m3u8"] ∧
    extractS (rejoinEpisodes (extractS "$https://a.com/1.m3u8$https://b.com/2.m3u8")) =
      ["https://a.com/1.m3u8"] ∧
    extractS "$https://a(b.m3u8" = ["https://a"] ∧
    extractS (rejoinEpisodes (extractS "$https://a(b.m3u8")) = [] := by
  refine ⟨by decide, by decide, by decide, by decide⟩

/-! ## Claim C8 -/

/-- C8 counterexample: `fetchWithTimeout` re-throws a network error or
timeout to its caller (the `catch` block ends in `throw error`), and a
non-2xx response is returned as an ordinary successful `Response` value,
not as a failure result. -/
theorem C8_counterexample :
    fetchWithTimeout (NetOutcome.netErr "network timeout") =
      Except.error "network timeout" ∧
    fetchWithTimeout (NetOutcome.resp 500 none) = Except.ok (500, none) := by
  exact ⟨rfl, rfl⟩

/-! ## Claim C10 -/

theorem insertOracle_perm {α : Type} (orc : Nat → Bool) (x : α) :
    ∀ (ys : List α) (c : Nat), (insertOracle orc c x ys).1.Perm (x :: ys) := by
  intro ys
  induction ys with
  | nil => intro c; simp [insertOracle]
  | cons y ys ih =>
    intro c
    by_cases h : orc c
    · simp [insertOracle, h]
    · simp only [insertOracle, h, Bool.false_eq_true, if_false]
      exact (List.Perm.cons y (ih (c + 1))).trans (List.Perm.swap x y ys)

theorem sortOracleGo_perm {α : Type} (orc : Nat → Bool) :
    ∀ (l : List α) (c : Nat), (sortOracleGo orc c l).1.Perm l := by
  intro l
  induction l with
  | nil => intro c; simp [sortOracleGo]
  | cons x xs ih =>
    intro c
    simp only [sortOracleGo]
    exact (insertOracle_perm orc x _ _).trans (List.Perm.cons x (ih c))

/-- C10: for every sequence of outcomes of the inconsistent random
comparator `() => 0.5 - Math.random()`, the comparison-driven sort used as
the randomized-ordering step returns a permutation of its input: no record
is lost and none duplicated. -/
theorem C10_shuffle_is_permutation {α : Type} (orc : Nat → Bool) (l : List α) :
    (sortOracle orc l).Perm l :=
  sortOracleGo_perm orc l 0

/-! ## Properties of the Map-based deduplication -/

theorem mapInsert_fst {V : Type} (m : List (String × V)) (k : String) (v : V) :
    (mapInsert m k v).map Prod.fst =
      if k ∈ m.map Prod.fst then m.map Prod.fst else m.map Prod.fst ++ [k] := by
  induction m with
  | nil => simp [mapInsert]
  | cons e rest ih =>
    by_cases h : e.1 = k
    · simp [mapInsert, h]
    · have h2 : ¬(k = e.1) := fun hk => h hk.symm
      by_cases hk : k ∈ rest.map Prod.fst
      · simp [mapInsert, h, ih, hk, h2]
      · simp [mapInsert, h, ih, hk, h2]

theorem mapInsert_nodup_keys {V : Type} (m : List (String × V)) (k : String) (v : V)
    (h : (m.map Prod.fst).Nodup) : ((mapInsert m k v).map Prod.fst).Nodup := by
  rw [mapInsert_fst]
  by_cases hk : k ∈ m.map Prod.fst
  · simpa [hk] using h
  · simp only [hk, if_false]
    rw [List.nodup_append]
    refine ⟨h, List.nodup_singleton k, ?_⟩
    intro a ha hab
    rw [List.mem_singleton] at hab
    exact hk (hab ▸ ha)

theorem mapFromPairs_nodup_aux {V : Type} :
    ∀ (ps : List (String × V)) (m : List (String × V)),
      (m.map Prod.fst).Nodup →
      ((ps.foldl (fun m p => mapInsert m p.1 p.2) m).map Prod.fst).Nodup := by
  intro ps
  induction ps with
  | nil => intro m h; simpa using h
  | cons p ps ih => intro m h; exact ih _ (mapInsert_nodup_keys m p.1 p.2 h)

theorem mapFromPairs_nodup_keys {V : Type} (ps : List (String × V)) :
    ((mapFromPairs ps).map Prod.fst).Nodup :=
  mapFromPairs_nodup_aux ps [] (by simp)

theorem mapInsert_mem {V : Type} (m : List (String × V)) (k : String) (v : V)
    (e : String × V) (he : e ∈ mapInsert m k v) : e = (k, v) ∨ e ∈ m := by
  induction m with
  | nil => simpa [mapInsert] using he
  | cons f rest ih =>
    by_cases h : f.1 = k
    · have hins : mapInsert (f :: rest) k v = (k, v) :: rest := by
        simp [mapInsert, h]
      rw [hins] at he
      rcases List.mem_cons.mp he with h1 | h1
      · exact Or.inl h1
      · exact Or.inr (List.mem_cons_of_mem f h1)
    · have hins : mapInsert (f :: rest) k v = f :: mapInsert rest k v := by
        simp [mapInsert, h]
      rw [hins] at he
      rcases List.mem_cons.mp he with h1 | h1
      · exact Or.inr (h1 ▸ List.mem_cons_self f rest)
      · rcases ih h1 with h2 | h2
        · exact Or.inl h2
        · exact Or.inr (List.mem_cons_of_mem f h2)

theorem mapFromPairs_pred {V : Type} (P : String × V → Prop) :
    ∀ (ps : List (String × V)) (m : List (String × V)),
      (∀ p ∈ ps, P p) → (∀ e ∈ m, P e) →
      ∀ e ∈ ps.foldl (fun m p => mapInsert m p.1 p.2) m, P e := by
  intro ps
  induction ps with
  | nil => intro m _ hm e he; exact hm e he
  | cons p ps ih =>
    intro m hp hm e he
    refine ih _ (fun q hq => hp q (List.mem_cons_of_mem p hq)) ?_ e he
    intro f hf
    rcases mapInsert_mem m p.1 p.2 f hf with h | h
    · cases p; exact h ▸ hp _ (List.mem_cons_self _ _)
    · exact hm f h

theorem mapFromPairs_entry {V : Type} (key : V → String) (l : List V) :
    ∀ e ∈ mapFromPairs (l.map fun v => (key v, v)), e.1 = key e.2 := by
  refine mapFromPairs_pred (fun e => e.1 = key e.2) _ [] ?_ (by simp)
  intro p hp
  rcases List.mem_map.mp hp with ⟨v, _, hv⟩
  rw [← hv]

theorem dedupBy_key_nodup {V : Type} (key : V → String) (l : List V) :
    ((dedupBy key l).map key).Nodup := by
  have hmap : (dedupBy key l).map key =
      (mapFromPairs (l.map fun v => (key v, v))).map Prod.fst := by
    unfold dedupBy
    rw [List.map_map]
    exact List.map_congr_left (fun e he => (mapFromPairs_entry key l e he).symm)
  rw [hmap]
  exact mapFromPairs_nodup_keys _

/-- Boolean test for an association-list entry with the given key. -/
def keyIs {V : Type} (k : String) (e : String × V) : Bool :=
  e.1 = k

theorem mapFromPairs_append {V : Type} (ps : List (String × V)) (p : String × V) :
    mapFromPairs (ps ++ [p]) = mapInsert (mapFromPairs ps) p.1 p.2 := by
  simp [mapFromPairs, List.foldl_append]

theorem find_mapInsert {V : Type} (m : List (String × V)) (k kq : String) (v : V) :
    (mapInsert m k v).find? (keyIs kq) =
      if kq = k then some (k, v) else m.find? (keyIs kq) := by
  induction m with
  | nil =>
    simp only [mapInsert]
    by_cases h : kq = k
    · simp [keyIs, h]
    · rw [List.find?_cons_of_neg _ (by simpa [keyIs] using fun hx => h hx.symm), if_neg h]
  | cons f rest ih =>
    by_cases hf : f.1 = k
    · have hins : mapInsert (f :: rest) k v = (k, v) :: rest := by
        simp [mapInsert, hf]
      rw [hins]
      by_cases h : kq = k
      · simp [keyIs, h]
      · have hfk : ¬(f.1 = kq) := fun hx => h ((hx.symm.trans hf).symm ▸ rfl)
        rw [List.find?_cons_of_neg _ (by simpa [keyIs] using fun hx => h hx.symm)]
        rw [List.find?_cons_of_neg _ (by simpa [keyIs] using hfk)]
        simp [h]
    · have hins : mapInsert (f :: rest) k v = f :: mapInsert rest k v := by
        simp [mapInsert, hf]
      rw [hins]
      by_cases hq : f.1 = kq
      · rw [List.find?_cons_of_pos _ (by simpa [keyIs] using hq)]
        have h : ¬(kq = k) := fun hx => hf (hq ▸ hx)
        rw [List.find?_cons_of_pos _ (by simpa [keyIs] using hq), if_neg h]
      · rw [List.find?_cons_of_neg _ (by simpa [keyIs] using hq),
          List.find?_cons_of_neg _ (by simpa [keyIs] using hq)]
        exact ih

theorem find_mapFromPairs {V : Type} (k : String) (ps : List (String × V)) :
    (mapFromPairs ps).find? (keyIs k) = ps.reverse.find? (keyIs k) := by
  induction ps using List.reverseRecOn with
  | nil => rfl
  | append_singleton ps p ih =>
    rw [mapFromPairs_append, find_mapInsert, List.reverse_append]
    by_cases h : k = p.1
    · simp only [List.reverse_singleton, List.singleton_append]
      rw [List.find?_cons_of_pos _ (by simpa [keyIs] using h.symm), if_pos h]
    · simp only [List.reverse_singleton, List.singleton_append]
      rw [List.find?_cons_of_neg _ (by simpa [keyIs] using fun hx => h hx.symm), if_neg h]
      exact ih

/-- For every input record there is exactly one retained record with its
dedup key, and it is the **last** record of the input carrying that key. -/
theorem dedupBy_last {V : Type} (key : V → String) (l : List V) (w : V) (hw : w ∈ l) :
    ∃ x, x ∈ dedupBy key l ∧ key x = key w ∧
      l.reverse.find? (fun y => key y = key w) = some x := by
  have hfind : (mapFromPairs (l.map fun v => (key v, v))).find? (keyIs (key w)) =
      ((l.map fun v => (key v, v)).reverse.find? (keyIs (key w))) :=
    find_mapFromPairs (key w) _
  have hrev : ((l.map fun v => (key v, v)).reverse.find? (keyIs (key w))) =
      ((l.reverse.find? (fun y => key y = key w)).map (fun v => (key v, v))) := by
    rw [← List.map_reverse, List.find?_map]
    rfl
  rcases hne : l.reverse.find? (fun y => key y = key w) with _ | y
  · exfalso
    have hmem : w ∈ l.reverse := List.mem_reverse.mpr hw
    have := List.find?_eq_none.mp hne w hmem
    simp at this
  · have hsome : (mapFromPairs (l.map fun v => (key v, v))).find? (keyIs (key w)) =
        some (key y, y) := by
      rw [hfind, hrev, hne]
      rfl
    have hmem : (key y, y) ∈ mapFromPairs (l.map fun v => (key v, v)) :=
      List.mem_of_find?_eq_some hsome
    have hky : key y = key w := by
      have hp := List.find?_some hne
      exact of_decide_eq_true hp
    exact ⟨y, List.mem_map_of_mem Prod.snd hmem, hky, rfl⟩

/-! ## Claim C2 (amended) -/

/-- C2 amended: when several records share the full-mode dedup key
`lower(title)-year-sourceKey`, the `Map`-based deduplication keeps the
**last**-seen instance (the record latest in concatenation order), not the
first-seen one; every input record is still represented by exactly one
retained record with its key, so records from different sources with the
same title and year (distinct keys) are all retained. -/
theorem C2_dedup_keeps_last (l : List Video) (w : Video) (hw : w ∈ l) :
    ∃ x, x ∈ dedupBy fullKey l ∧ fullKey x = fullKey w ∧
      l.reverse.find? (fun y => fullKey y = fullKey w) = some x :=
  dedupBy_last fullKey l w hw

/-- C2 witness: instantiating the amended statement on the concrete
duplicate pair. -/
theorem C2_dedup_keeps_last_witness :
    ∃ x, x ∈ dedupBy fullKey [vDup1, vDup2] ∧ fullKey x = fullKey vDup1 ∧
      [vDup1, vDup2].reverse.find? (fun y => fullKey y = fullKey vDup1) = some x :=
  C2_dedup_keeps_last [vDup1, vDup2] vDup1 (by decide)

/-! ## Claim C3 -/

/-- C3: in every aggregated output, retained records are pairwise distinct
under the mode's dedup key: after full-mode deduplication no two retained
records agree on lowered title, year and source key simultaneously, and
after trending-mode deduplication no two retained records agree on lowered
title, year and class simultaneously. -/
theorem C3_dedup_key_uniqueness (l : List Video) :
    (dedupBy fullKey l).Pairwise (fun a b =>
      ¬(jsToLower a.title = jsToLower b.title ∧ a.year = b.year ∧ a.source = b.source)) ∧
    (dedupBy trendKey l).Pairwise (fun a b =>
      ¬(jsToLower a.title = jsToLower b.title ∧ a.year = b.year ∧ a.cls = b.cls)) := by
  constructor
  · have hf : (List.map fullKey (dedupBy fullKey l)).Pairwise (· ≠ ·) :=
      dedupBy_key_nodup fullKey l
    refine (List.pairwise_map.mp hf).imp ?_
    intro a b hne hc
    exact hne (by unfold fullKey; rw [hc.1, hc.2.1, hc.2.2])
  · have ht : (List.map trendKey (dedupBy trendKey l)).Pairwise (· ≠ ·) :=
      dedupBy_key_nodup trendKey l
    refine (List.pairwise_map.mp ht).imp ?_
    intro a b hne hc
    exact hne (by unfold trendKey; rw [hc.1, hc.2.1, hc.2.2])

/-! ## Claim C1 (amended) -/

theorem filter_map_comm {α β : Type} (f : α → β) (p : β → Bool) (l : List α) :
    (l.map f).filter p = (l.filter (fun a => p (f a))).map f := by
  induction l with
  | nil => rfl
  | cons a l ih =>
    by_cases h : p (f a) = true
    · simp [List.filter_cons, h, ih]
    · simp [List.filter_cons, h, ih]

/-- The normalized title is never empty: an absent or all-whitespace raw
title becomes the sentinel `"未知标题"`. -/
theorem normTitle_ne_empty (v : Option String) : normTitle v ≠ "" := by
  rcases v with _ | n
  · decide
  · simp only [normTitle]
    by_cases h : collapseWs (trimChars n.data) = []
    · rw [if_pos h]
      decide
    · rw [if_neg h]
      intro hc
      apply h
      have hdata : (String.mk (collapseWs (trimChars n.data))).data = ("" : String).data := by
        rw [hc]
      simpa using hdata

/-- C1 amended: at the normalization layer, the poster alone decides
emission — the record list after the `video.title && video.poster` filter
is exactly the records whose raw `vod_pic` is present and non-empty, each
normalized; a missing or empty raw title never causes rejection because it
is replaced by the non-empty sentinel `"未知标题"`. -/
theorem C1_poster_decides_emission (clean : String → String)
    (tok sourceKey sourceName : String) (items : List RawItem) :
    processItems clean tok sourceKey sourceName items =
      (items.filter (fun it => !(it.vod_pic.getD "" = ""))).map
        (normalizeItem clean tok sourceKey sourceName) := by
  unfold processItems
  rw [filter_map_comm]
  congr 1
  apply List.filter_congr
  intro it _
  have hT := normTitle_ne_empty it.vod_name
  simp [keepVideo, normalizeItem, hT]

/-! ## Claim C7 (amended) -/

theorem take4Digits_shape (l : List Char) (r : String) (h : take4Digits l = some r) :
    r.length = 4 ∧ r.data.all Char.isDigit = true := by
  rcases l with _ | ⟨a, l1⟩
  · simp [take4Digits] at h
  rcases l1 with _ | ⟨b, l2⟩
  · simp [take4Digits] at h
  rcases l2 with _ | ⟨c, l3⟩
  · simp [take4Digits] at h
  rcases l3 with _ | ⟨d, rest⟩
  · simp [take4Digits] at h
  rw [show take4Digits (a :: b :: c :: d :: rest) =
      if (a.isDigit && b.isDigit && c.isDigit && d.isDigit) = true then
        some (String.mk [a, b, c, d]) else none from rfl] at h
  by_cases hd : (a.isDigit && b.isDigit && c.isDigit && d.isDigit) = true
  · rw [if_pos hd] at h
    injection h with h
    subst h
    refine ⟨rfl, ?_⟩
    simp only [Bool.and_eq_true] at hd
    simp [String.all, hd.1.1.1, hd.1.1.2, hd.1.2, hd.2]
  · rw [if_neg hd] at h
    exact Option.noConfusion h

theorem find4Digits_shape (l : List Char) (r : String) (h : find4Digits l = some r) :
    r.length = 4 ∧ r.data.all Char.isDigit = true := by
  induction l with
  | nil => exact Option.noConfusion h
  | cons a rest ih =>
    rw [find4Digits] at h
    rcases h4 : take4Digits (a :: rest) with _ | s
    · rw [h4] at h
      exact ih h
    · rw [h4] at h
      injection h with h
      exact h ▸ take4Digits_shape (a :: rest) s h4

/-- C7 amended: the normalized year is the first 4-digit run of the raw
year field when the field is present, non-empty and contains such a run;
it is `"unknown"` when the field is absent **or empty**; and it is the
empty string (not `"unknown"`) when the field is present and non-empty but
contains no 4-digit run.  So an emitted year is a 4-digit string,
`"unknown"`, or `""`. -/
theorem C7_year_normalization (clean : String → String)
    (tok sourceKey sourceName : String) (item : RawItem) :
    ((item.vod_year = none ∨ item.vod_year = some "") ∧
        (normalizeItem clean tok sourceKey sourceName item).year = "unknown") ∨
    (∃ s, item.vod_year = some s ∧ s ≠ "" ∧ find4Digits s.data = none ∧
        (normalizeItem clean tok sourceKey sourceName item).year = "") ∨
    (∃ s r, item.vod_year = some s ∧ s ≠ "" ∧ find4Digits s.data = some r ∧
        (normalizeItem clean tok sourceKey sourceName item).year = r ∧
        r.length = 4 ∧ r.data.all Char.isDigit = true) := by
  rcases hy : item.vod_year with _ | s
  · exact Or.inl ⟨Or.inl rfl, by simp [normalizeItem, normYear, hy]⟩
  · by_cases hs : s = ""
    · exact Or.inl ⟨Or.inr (by rw [hs]), by simp [normalizeItem, normYear, hy, hs]⟩
    · rcases hf : find4Digits s.data with _ | r
      · exact Or.inr (Or.inl ⟨s, rfl, hs, hf,
          by simp [normalizeItem, normYear, hy, hs, hf]⟩)
      · have hshape := find4Digits_shape s.data r hf
        exact Or.inr (Or.inr ⟨s, r, rfl, hs, hf,
          by simp [normalizeItem, normYear, hy, hs, hf], hshape.1, hshape.2⟩)

/-! ## Claim C8 (amended) -/

/-- Whether an `Except` carries a value (the computation did not raise). -/
def exceptIsOk {ε α : Type} : Except ε α → Bool
  | .ok _ => true
  | .error _ => false

/-- C8 amended: `fetchWithTimeout` itself does **not** absorb failures — a
network error or timeout is re-raised to its caller (seen here as the
`Except.error` propagating through `fetchVideosBody`), while every resolved
response, 2xx or not, yields a value without raising.  The absorption
happens one level up: `fetchCategoryVideosFromApi` catches any raise and
converts it to an empty list, so the aggregation layer always receives a
success-or-empty-list result. -/
theorem C8_failure_absorption (clean : String → String)
    (tok sourceKey sourceName category : String) (o : NetOutcome)
    (status : Nat) (body : Option (List RawItem)) (msg : String) :
    ((exceptIsOk (fetchVideosBody clean tok sourceKey sourceName category o) = false ∧
        fetchCategoryVideosFromApi clean tok sourceKey sourceName category o = []) ∨
      fetchVideosBody clean tok sourceKey sourceName category o =
        Except.ok (fetchCategoryVideosFromApi clean tok sourceKey sourceName category o)) ∧
    exceptIsOk (fetchVideosBody clean tok sourceKey sourceName category
        (NetOutcome.resp status body)) = true ∧
    fetchVideosBody clean tok sourceKey sourceName category (NetOutcome.netErr msg) =
      Except.error msg := by
  refine ⟨?_, ?_, rfl⟩
  · rcases hb : fetchVideosBody clean tok sourceKey sourceName category o with msg2 | v
    · exact Or.inl ⟨by simp [exceptIsOk, hb], by simp [fetchCategoryVideosFromApi, hb]⟩
    · exact Or.inr (by simp [fetchCategoryVideosFromApi, hb])
  · simp only [fetchVideosBody, fetchWithTimeout]
    rcases body with _ | items
    · by_cases hok : responseOk status = true <;> simp [hok, exceptIsOk]
    · by_cases hok : responseOk status = true
      · by_cases hlen : items.length = 0 <;> simp [hok, hlen, exceptIsOk]
      · simp [hok, exceptIsOk]

/-! ## Claim C4 (amended) -/

theorem take_min_length {α : Type} (l : List α) (b : Nat) :
    l.take (min b l.length) = l.take b := by
  rcases Nat.le_total b l.length with h | h
  · rw [Nat.min_eq_left h]
  · rw [Nat.min_eq_right h, List.take_length]
    exact (List.take_of_length_le h).symm

/-- C4 amended: for **non-negative** start and limit the returned items are
exactly the slice `[start, start+limit)` clipped to the sequence's bounds,
and any start at or beyond the total count yields an empty list; for a
negative start JS `slice` instead counts from the end of the array, so the
clip-to-bounds reading fails there (see the counterexample). -/
theorem C4_pagination {α : Type} (l : List α) (s t : Int)
    (hs : 0 ≤ s) (ht : 0 ≤ t) :
    paginate l s t = clipSlice l s t ∧
      paginate l ((l.length : Int) + s) t = [] := by
  constructor
  · unfold paginate jsSlice jsNormIdx clipSlice
    rw [if_neg (by omega), if_neg (by omega)]
    rw [take_min_length]
    have hdrop : (l.take (s + t).toNat).drop (min s.toNat l.length) =
        (l.take (s + t).toNat).drop s.toNat := by
      rcases Nat.le_total s.toNat l.length with h | h
      · rw [Nat.min_eq_left h]
      · rw [Nat.min_eq_right h]
        rw [List.drop_eq_nil_of_le, List.drop_eq_nil_of_le]
        · exact le_trans (by rw [List.length_take]; exact Nat.min_le_right _ _) h
        · exact le_trans (by rw [List.length_take]; exact Nat.min_le_right _ _) (le_refl _)
    rw [hdrop, List.drop_take]
  · unfold paginate jsSlice jsNormIdx
    rw [if_neg (by omega), if_neg (by omega)]
    have h1 : min ((l.length : Int) + s).toNat l.length = l.length := by
      rw [Nat.min_eq_right]
      omega
    rw [h1]
    apply List.drop_eq_nil_of_le
    rw [List.length_take]
    exact Nat.min_le_right _ _

/-- C4 witness: the amended pagination statement at concrete inputs. -/
theorem C4_pagination_witness :
    paginate ([5] : List Nat) 0 1 = clipSlice ([5] : List Nat) 0 1 ∧
      paginate ([5] : List Nat) ((([5] : List Nat).length : Int) + 0) 1 = [] :=
  C4_pagination [5] 0 1 (by decide) (by decide)

/-! ## Claim C9 -/

theorem produce_eq_nil_of_not_survivor (clean : String → String)
    (tok sourceKey sourceName category : String) (o : NetOutcome)
    (h : isSurvivor o = false) :
    fetchCategoryVideosFromApi clean tok sourceKey sourceName category o = [] := by
  rcases o with ⟨status, body⟩ | msg
  · rcases body with _ | items
    · by_cases hok : responseOk status = true <;>
        simp [fetchCategoryVideosFromApi, fetchVideosBody, fetchWithTimeout, hok]
    · have hok : responseOk status = false := by
        simpa [isSurvivor] using h
      simp [fetchCategoryVideosFromApi, fetchVideosBody, fetchWithTimeout, hok]
  · rfl

theorem flatten_filter_survivors (clean : String → String) (tok category : String)
    (pairs : List (ApiSite × NetOutcome)) :
    (((pairs.filter (fun p => isSurvivor p.2)).map (fun p =>
        fetchCategoryVideosFromApi clean tok p.1.key p.1.name category p.2)).flatten) =
      ((pairs.map (fun p =>
        fetchCategoryVideosFromApi clean tok p.1.key p.1.name category p.2)).flatten) := by
  induction pairs with
  | nil => rfl
  | cons p ps ih =>
    by_cases h : isSurvivor p.2 = true
    · simp only [List.filter_cons, h, if_pos, List.map_cons, List.flatten_cons, ih]
    · have h0 : isSurvivor p.2 = false := by
        revert h
        cases isSurvivor p.2 <;> simp
      rw [List.filter_cons, if_neg (by simp [h0])]
      simp only [List.map_cons, List.flatten_cons, ih,
        produce_eq_nil_of_not_survivor clean tok p.1.key p.1.name category p.2 h0,
        List.nil_append]

/-- C9: the category aggregation always answers `code = 200` when the
configuration collaborator itself succeeds: with no configured sources it
returns the explanatory message and an empty list, and otherwise its list
is computed from exactly the surviving sources' outputs — every failing
source (thrown error, non-2xx status, or missing/malformed JSON list)
contributes nothing to the merged set. -/
theorem C9_partial_failure_tolerance (clean : String → String) (tok : String)
    (sites : List ApiSite) (outcomes : List NetOutcome) (category : String)
    (pageStart pageLimit : Int) (orc : Nat → Bool) :
    categoryGET clean tok sites outcomes category pageStart pageLimit orc =
      if sites.length = 0 then
        { code := 200, message := "暂无可用视频源", list := [] }
      else
        { code := 200, message := "获取成功",
          list := paginate (sortOracle orc (dedupBy fullKey
            ((((sites.zip outcomes).filter (fun p => isSurvivor p.2)).map (fun p =>
              fetchCategoryVideosFromApi clean tok p.1.key p.1.name category p.2)).flatten)))
            pageStart pageLimit } := by
  unfold categoryGET
  by_cases h : sites.length = 0
  · rw [if_pos h, if_pos h]
  · rw [if_neg h, if_neg h, flatten_filter_survivors]

/-! ## Claim C6 (amended) -/

def tripleDollar : List Char := ['$', '$', '$']

theorem splitSep_no_sep (l : List Char) (h : containsSub tripleDollar l = false) :
    splitSep l = [l] := by
  induction l with
  | nil => rfl
  | cons c rest ih =>
    have hor : tripleDollar.isPrefixOf (c :: rest) = false ∧
        containsSub tripleDollar rest = false := by
      simpa [containsSub, Bool.or_eq_false_iff] using h
    rw [splitSep.eq_3 c rest (by
      intro rest1 hc hr
      subst hc
      subst hr
      simp [tripleDollar, List.isPrefixOf] at hor)]
    rw [ih hor.2]
    rfl

theorem findMatchesFuel_nil (fuel : Nat) : findMatchesFuel fuel [] = [] := by
  cases fuel <;> rfl

theorem findMatches_of_tryMatch (l : List Char) (h : tryMatch l = some (l, [])) :
    findMatches l = [l] := by
  rcases l with _ | ⟨c, rest⟩
  · simp [tryMatch] at h
  · show findMatchesFuel (c :: rest).length (c :: rest) = [c :: rest]
    rw [List.length_cons]
    rw [show findMatchesFuel (rest.length + 1) (c :: rest) =
        (match tryMatch (c :: rest) with
          | some (m, rest2) => m :: findMatchesFuel rest.length rest2
          | none => findMatchesFuel rest.length rest) from rfl]
    rw [h]
    simp [findMatchesFuel_nil]

/-- C6 amended: re-running the extractor on its `$`-prefixed,
`$$$`-joined output reproduces the output only in the degenerate cases the
counterexample leaves open — here, when the output is a single URL that
still re-parses as one complete `$`-prefixed m3u8 match, contains no `(`
and no `$$$` run (as an untruncated single extracted URL does); with two
or more URLs the re-joined groups hold one match each and only the first
survives the tie rule, so idempotence fails in general. -/
theorem C6_idempotence_single (s v : String)
    (h0 : extractS s = [v])
    (h1 : containsSub tripleDollar ('$' :: v.data) = false)
    (h2 : tryMatch ('$' :: v.data) = some ('$' :: v.data, []))
    (h3 : v.data.findIdx? (fun c => c = '(') = none) :
    extractS (rejoinEpisodes (extractS s)) = extractS s := by
  rw [h0]
  have hjoin : rejoinEpisodes [v] = "$" ++ v := rfl
  rw [hjoin]
  have hdata : ("$" ++ v).data = '$' :: v.data := by
    rw [String.data_append]
    rfl
  unfold extractS extractEpisodes
  rw [hdata, splitSep_no_sep _ h1]
  simp only [selectBest, List.foldl_cons, List.foldl_nil]
  rw [findMatches_of_tryMatch _ h2]
  simp only [List.length_nil, List.length_cons, Nat.lt_irrefl, Nat.zero_lt_succ, if_pos]
  simp [insertionDedup, dedupSeen, stripAndTrunc, h3]

/-- C6 witness: the amended idempotence statement on a concrete
single-URL input. -/
theorem C6_idempotence_single_witness :
    extractS (rejoinEpisodes (extractS "$https://a.com/1.m3u8")) =
      extractS "$https://a.com/1.m3u8" :=
  C6_idempotence_single "$https://a.com/1.m3u8" "https://a.com/1.m3u8"
    (by decide) (by decide) (by decide) (by decide)
